import Mathlib

/-!
Verification of the index-benchmark core of the `fyp_node` repository.

The program (src/index.js) benchmarks four key-lookup strategies over a shared
integer population (`dataset`) and query set (`testset`):
hash map, sorted-array binary search, AVL tree (external library), and a
CDF-guided interpolation search (`tricksearch`).

JavaScript particulars that the embedding keeps:
* `a[i]` on an array yields `undefined` when `i` is out of `[0, length)`;
  we model element access as `Option Int` (`none` = `undefined`).
* `undefined < t`, `undefined > t` and `undefined == t` are all false
  for a number `t`.
* `!a[i]` is true when `a[i]` is `undefined` or the number `0`.
* `Math.floor` of an exact quotient with a positive divisor is floor
  division (`Int.fdiv`); `(high - low) / 2` with `high ≥ low` is ordinary
  division of nonnegative integers.
* `arr.slice(0)` returns a fresh copy; `arr.sort(cmp)` sorts the receiver
  in place and returns the receiver.  The heap model below makes the
  copy/in-place distinction explicit for the frame claim.
-/

/-- JavaScript array indexing `set[i]` for a possibly negative or
out-of-range index: `none` models `undefined`. -/
def jsGet (set : List Int) (i : Int) : Option Int :=
  if 0 ≤ i then set[i.toNat]? else none

/-- The ascending sort `array.sort((a, b) => a - b)` used to build the
SortedArrayIndex (src/index.js lines 129, 134, 261, 271).  The ascending
reordering of an integer list is unique, so any correct sort models the
JS numeric sort; we use insertion sort. -/
def sortArray (l : List Int) : List Int :=
  List.insertionSort (fun a b => a ≤ b) l

/-! ## HashIndex (src/index.js lines 83-103)

`for (let i = 0; i < dataset.length; i++) map.set(dataset[i], i);`
then `if (map.has(k)) result = map.get(k); else result = -1;`. -/

/-- One `map.set(x, i)` step of the build loop threaded over the rest of
the dataset: the map is a function `Int → Option Nat`, later inserts
overwrite earlier ones. -/
def hashBuildAux (m : Int → Option Nat) (i : Nat) : List Int → (Int → Option Nat)
  | [] => m
  | x :: xs => hashBuildAux (fun k => if k = x then some i else m k) (i + 1) xs

/-- The Map built by `for (let i = 0; ...) map.set(dataset[i], i)`. -/
def hashBuild (dataset : List Int) : Int → Option Nat :=
  hashBuildAux (fun _ => none) 0 dataset

/-- `map.has(k)` on the built map. -/
def hashHas (dataset : List Int) (k : Int) : Bool :=
  (hashBuild dataset k).isSome

/-- The lookup of the hashtable routes:
`if (map.has(k)) result = map.get(k); else result = -1;`. -/
def hashLookup (dataset : List Int) (k : Int) : Int :=
  match hashBuild dataset k with
  | some i => (i : Int)
  | none => -1

/-- The index of the last occurrence of `k`, used to specify the
overwrite behaviour of the hash build. -/
def lastIdx? : List Int → Int → Option Nat
  | [], _ => none
  | x :: xs, k =>
    match lastIdx? xs k with
    | some j => some (j + 1)
    | none => if k = x then some 0 else none

/-! ## Binary search (src/index.js lines 143-157)

```
function binsearch(nums, target) {
    let low = 0, high = nums.length - 1;
    while (low <= high) {
        const mid = Math.floor((high - low) / 2) + low;
        const num = nums[mid];
        if (num === target) return mid;
        else if (num > target) high = mid - 1;
        else low = mid + 1;
    }
    return -1;
}
```
When `nums[mid]` is `undefined` (empty array), both `undefined === target`
and `undefined > target` are false, so the loop takes the `low = mid + 1`
branch; that is the `none` case below. -/

/-- The `while (low <= high)` loop of `binsearch`; the source's
`const mid = Math.floor((high - low) / 2) + low` is written inline. -/
def binsearchAux (nums : List Int) (target : Int) (low high : Int) : Int :=
  if hlh : low ≤ high then
    match jsGet nums ((high - low) / 2 + low) with
    | some num =>
      if num = target then (high - low) / 2 + low
      else if num > target then binsearchAux nums target low ((high - low) / 2 + low - 1)
      else binsearchAux nums target ((high - low) / 2 + low + 1) high
    | none => binsearchAux nums target ((high - low) / 2 + low + 1) high
  else -1
termination_by (high + 1 - low).toNat
decreasing_by
  all_goals omega

/-- `binsearch(nums, target)` with the initial bounds
`low = 0, high = nums.length - 1`. -/
def binsearch (nums : List Int) (target : Int) : Int :=
  binsearchAux nums target 0 ((nums.length : Int) - 1)

/-! ## AVLIndex -/

/-- Modelled from the spec: the AVL tree implementation
(`@yetzt/binary-search-tree`) is an external npm library, not part of this
repository's sources; §4.4 of the spec states that after inserting
`(key, position)` pairs for the population, `lookup(key)` returns the set
of positions matching `key`, duplicates retained, empty set = not found.
We model the search over the tree built from `population` as the list of
positions holding `k`. -/
def avlSearch (population : List Int) (k : Int) : List Nat :=
  (List.range population.length).filter (fun i => population[i]? = some k)

/-! ## Interpolation ("trick") search (src/index.js lines 276-308)

```
function tricksearch(set, index, target) {
    if (!set[index]) { }
    else if (set[index] < target) {
        while (set[index] < target) { index++; }
        if (set[index] == target) return index; else return -1;
    }
    else if (set[index] > target) {
        while (set[index] < target) { index++; }
        if (set[index] == target) return index; else return -1;
    }
}
```
The two non-empty branches have the same body (the `>` branch repeats the
`<` branch's loop verbatim), modelled once as `scanUp`.  A fall-through —
the falsy first branch, or `set[index] == target` so that no branch
applies — returns `undefined`, modelled as `none`. -/

/-- `while (set[index] < target) { index++; } if (set[index] == target)
return index; else return -1;` starting from a nonnegative index.  Once
`index` reaches `set.length`, `set[index]` is `undefined`, the loop guard
`undefined < target` is false, and `undefined == target` is false, giving
`-1`. -/
def scanUp (set : List Int) (target : Int) (i : Nat) : Option Int :=
  if h : i < set.length then
    if set.get ⟨i, h⟩ < target then scanUp set target (i + 1)
    else if set.get ⟨i, h⟩ = target then some (i : Int) else some (-1)
  else some (-1)
termination_by set.length - i

/-- The iterative `tricksearch(set, index, target)` of src/index.js.
`none` models a JS `undefined` return (fall-through), `some (-1)` the
explicit `return -1`, and `some i` with `0 ≤ i` the `return index`.
In the two comparison branches `jsGet set index = some v` forces
`0 ≤ index`, so `index.toNat` is exact. -/
def tricksearch (set : List Int) (index target : Int) : Option Int :=
  match jsGet set index with
  | none => none
  | some v =>
    if v = 0 then none
    else if v < target then scanUp set target index.toNat
    else if target < v then scanUp set target index.toNat
    else none

/-- The uniform-route rank guess
`Math.floor(num * (key - low) / (high - low))`
(src/index.js line 475): floor of the exact rational quotient, i.e.
floor division for a positive denominator. -/
def uniformGuess (num low high key : Int) : Int :=
  Int.fdiv (num * (key - low)) (high - low)

/-! ## Timed query pass (src/index.js lines 92-103 and 536-549)

`while (index < num) { ... testset[index] ...; index++; }` — every
benchmark route's timed pass looks up `testset[index]` once per iteration
for `index = 0, …, num − 1`. -/

/-- The sequence of keys looked up by the timed query pass: iteration
`index` looks up `testset[index]` (`none` = `undefined` when the route's
count exceeds the query set's length). -/
def queryPassKeys (testset : List Int) (num : Nat) : List (Option Int) :=
  (List.range num).map (fun index => testset[index]?)

/-! ## Heap model for the build phase (src/index.js lines 127-134, 259-271)

JS arrays are heap references: `slice(0)` allocates a copy, `sort(cmp)`
sorts its receiver in place and returns the same reference.  The frame
claim (the shared `dataset` is untouched by a build) is about aliasing,
so the build phases are run over an explicit heap. -/

/-- A heap of JS arrays; a reference is an index into `arrays`. -/
structure JsHeap where
  arrays : List (List Int)

/-- Dereference. -/
def JsHeap.read (h : JsHeap) (r : Nat) : List Int :=
  (h.arrays[r]?).getD []

/-- Allocate a fresh array, returning its reference. -/
def JsHeap.alloc (h : JsHeap) (v : List Int) : JsHeap × Nat :=
  (⟨h.arrays ++ [v]⟩, h.arrays.length)

/-- Overwrite the array behind a reference. -/
def JsHeap.write (h : JsHeap) (r : Nat) (v : List Int) : JsHeap :=
  ⟨h.arrays.set r v⟩

/-- `a.slice(0)`: allocate a copy of the referenced array. -/
def jsSlice0 (h : JsHeap) (r : Nat) : JsHeap × Nat :=
  h.alloc (h.read r)

/-- `a.sort((x, y) => x - y)`: sort the referenced array in place and
return the same reference. -/
def jsSortInPlace (h : JsHeap) (r : Nat) : JsHeap × Nat :=
  (h.write r (sortArray (h.read r)), r)

/-- The build phase of `/binarysearch_normal` (src/index.js lines 127-134):
`let set = dataset.slice(0); let arr = set.sort(cmp).slice(0);
let sett = dataset.slice(0); let array = sett.sort(cmp);`
returning the final heap and the reference bound to `array`. -/
def binarysearchBuild (h0 : JsHeap) (dataset : Nat) : JsHeap × Nat :=
  let p1 := jsSlice0 h0 dataset
  let p2 := jsSortInPlace p1.1 p1.2
  let p3 := jsSlice0 p2.1 p2.2
  let p4 := jsSlice0 p3.1 dataset
  jsSortInPlace p4.1 p4.2

/-- The build phase of `/trick_normal` (src/index.js lines 259-271):
`let settt = dataset.slice(0); let arr = settt.sort(cmp).slice(0);
let sett = dataset.slice(0); let array = sett.sort(cmp);`. -/
def trickBuild (h0 : JsHeap) (dataset : Nat) : JsHeap × Nat :=
  let p1 := jsSlice0 h0 dataset
  let p2 := jsSortInPlace p1.1 p1.2
  let p3 := jsSlice0 p2.1 p2.2
  let p4 := jsSlice0 p3.1 dataset
  jsSortInPlace p4.1 p4.2

/-! ## Theorems -/

/-- Any `jsGet` hit is a member of the list. -/
theorem mem_of_jsGet_eq_some {set : List Int} {i v : Int} (h : jsGet set i = some v) :
    v ∈ set := by
  unfold jsGet at h
  by_cases h0 : 0 ≤ i
  · rw [if_pos h0] at h
    exact List.mem_iff_getElem?.mpr ⟨i.toNat, h⟩
  · rw [if_neg h0] at h
    cases h

/-- An out-of-range index reads `undefined`. -/
theorem jsGet_eq_none_of_oob {set : List Int} {i : Int}
    (h : i < 0 ∨ (set.length : Int) ≤ i) : jsGet set i = none := by
  unfold jsGet
  rcases h with h | h
  · rw [if_neg (by omega)]
  · rw [if_pos (by omega)]
    exact List.getElem?_eq_none (by omega)

/-- An in-range index reads the element there. -/
theorem jsGet_eq_some_of_lt {set : List Int} {i : Int} (h0 : 0 ≤ i)
    (h : i < (set.length : Int)) :
    jsGet set i = some (set.get ⟨i.toNat, by omega⟩) := by
  unfold jsGet
  rw [if_pos h0, List.getElem?_eq_getElem (by omega)]
  simp [List.get_eq_getElem]

/-- C1: the interpolation strategy breaks the all-strategies-find property.
For the population `[3,3,3,3,3]` under uniform parameters `low = 0`,
`high = 10`, `N = 5`, the key `3` is present and the specified guess is
`floor(5 * (3 - 0) / (10 - 0)) = 1`, yet `tricksearch` on the (sorted)
array returns `undefined` (`none`): the element at the guess equals the
target, no branch of the function applies, and it falls through without
reporting the key found. -/
theorem claim1_tricksearch_misses_present_key :
    uniformGuess 5 0 10 3 = 1 ∧
      (3 : Int) ∈ [3, 3, 3, 3, 3] ∧
      List.Sorted (fun a b => a ≤ b) [(3 : Int), 3, 3, 3, 3] ∧
      tricksearch [3, 3, 3, 3, 3] 1 3 = none := by
  refine ⟨by decide, by decide, by decide, ?_⟩
  simp [tricksearch, jsGet]

/-- C2: the iterative `tricksearch` does not perform the specified
correction scan.  On the sorted array `[1, 2, 3]`, guess `2`, target `1`
(element above the target), the specified scan retreats and finds `1` at
index `0`; the code returns `-1` immediately, because the retreat branch
repeats the advance loop `while (set[index] < target) index++`, whose
guard is false on entry.  Moreover an exact hit at the guess (array
`[1, 2, 3]`, guess `1`, target `2`) matches no branch and returns
`undefined` (`none`) instead of the matching index. -/
theorem claim2_tricksearch_never_retreats :
    tricksearch [1, 2, 3] 2 1 = some (-1) ∧
      tricksearch [1, 2, 3] 1 2 = none := by
  constructor
  · simp [tricksearch, jsGet, scanUp]
  · simp [tricksearch, jsGet]

/-- C5: a guess index outside `[0, N)` is handled by the falsy test
`!set[index]` — `set[index]` is `undefined` there — so `tricksearch`
returns `undefined` (`none`), a non-found outcome; the function is total,
so no fatal error can be raised. -/
theorem claim5_oob_guess_not_found (set : List Int) (g target : Int)
    (h : g < 0 ∨ (set.length : Int) ≤ g) :
    tricksearch set g target = none := by
  unfold tricksearch
  rw [jsGet_eq_none_of_oob h]

theorem claim5_oob_guess_not_found_witness :
    ((5 : Int) < 0 ∨ ((List.length [(1 : Int), 2] : Int) ≤ 5)) ∧
      tricksearch [1, 2] 5 1 = none :=
  ⟨by decide, claim5_oob_guess_not_found [1, 2] 5 1 (by decide)⟩

/-- C6: with an empty population every strategy reports not found and no
error is raised: the hash membership test is false (and the lookup yields
`-1`), binary search over the (empty) sorted array returns `-1`, the AVL
search result set is empty, and `tricksearch` returns its non-found
result, for every key and every guess. -/
theorem claim6_empty_population_not_found (k g : Int) :
    hashHas [] k = false ∧
      hashLookup [] k = -1 ∧
      binsearch (sortArray []) k = -1 ∧
      avlSearch [] k = [] ∧
      tricksearch [] g k = none := by
  refine ⟨rfl, rfl, ?_, rfl, ?_⟩
  · simp [sortArray, binsearch, binsearchAux]
  · unfold tricksearch
    rcases lt_or_le g 0 with h | h
    · rw [jsGet_eq_none_of_oob (Or.inl h)]
    · rw [jsGet_eq_none_of_oob (Or.inr (by simpa using h))]

/-- C10: whenever `set[index]` is falsy — `undefined` because the guess is
out of bounds or the array is empty, or the number `0` stored there — the
falsy branch `if (!set[index]) {}` is taken and `tricksearch` falls
through, returning `undefined` (`none`), not `-1`; in particular on any
sorted array holding `0` at the guess index, looking up the present key
`0` returns `undefined`, so the key is not reported found. -/
theorem claim10_falsy_guess_returns_undefined :
    (∀ (set : List Int) (g target : Int),
        jsGet set g = none ∨ jsGet set g = some 0 →
        tricksearch set g target = none) ∧
    (∀ (set : List Int) (g : Int),
        List.Sorted (fun a b => a ≤ b) set →
        jsGet set g = some 0 →
        tricksearch set g 0 = none) := by
  constructor
  · intro set g target h
    unfold tricksearch
    rcases h with h | h <;> rw [h]
    simp
  · intro set g _ h
    unfold tricksearch
    rw [h]
    simp

theorem claim10_falsy_guess_returns_undefined_witness :
    (List.Sorted (fun a b => a ≤ b) [(0 : Int), 1] ∧
        jsGet [0, 1] 0 = some 0) ∧
      tricksearch [0, 1] 0 0 = none :=
  ⟨⟨by decide, by decide⟩,
    claim10_falsy_guess_returns_undefined.2 [0, 1] 0 (by decide) (by decide)⟩

/-! ### HashIndex lemmas -/

theorem lastIdx?_cons (x : Int) (xs : List Int) (k : Int) :
    lastIdx? (x :: xs) k =
      match lastIdx? xs k with
      | some j => some (j + 1)
      | none => if k = x then some 0 else none := rfl

/-- The build loop computes the map sending each key to its last insert
position (offset by the loop counter `i`). -/
theorem hashBuildAux_apply (xs : List Int) :
    ∀ (m : Int → Option Nat) (i : Nat) (k : Int),
      hashBuildAux m i xs k =
        match lastIdx? xs k with
        | some j => some (i + j)
        | none => m k := by
  induction xs with
  | nil => intro m i k; rfl
  | cons x xs ih =>
    intro m i k
    show hashBuildAux (fun k => if k = x then some i else m k) (i + 1) xs k = _
    rw [ih, lastIdx?_cons]
    cases hL : lastIdx? xs k with
    | some j =>
      simp only []
      congr 1
      omega
    | none =>
      by_cases hk : k = x
      · simp [hk]
      · simp [hk]

theorem lastIdx?_eq_none_iff (xs : List Int) (k : Int) :
    lastIdx? xs k = none ↔ k ∉ xs := by
  induction xs with
  | nil => simp [lastIdx?]
  | cons x xs ih =>
    rw [lastIdx?_cons]
    cases hL : lastIdx? xs k with
    | some j =>
      have hkxs : k ∈ xs := by
        by_contra hx
        rw [ih.mpr hx] at hL
        cases hL
      simp [hkxs]
    | none =>
      by_cases hk : k = x
      · simp [hk]
      · simp [List.mem_cons, hk, ih.mp hL]

theorem lastIdx?_getElem (xs : List Int) (k : Int) :
    ∀ j : Nat, lastIdx? xs k = some j → xs[j]? = some k := by
  induction xs with
  | nil => intro j h; cases h
  | cons x xs ih =>
    intro j h
    rw [lastIdx?_cons] at h
    cases hL : lastIdx? xs k with
    | some j0 =>
      rw [hL] at h
      simp only [Option.some.injEq] at h
      subst h
      simpa using ih j0 hL
    | none =>
      rw [hL] at h
      by_cases hk : k = x
      · rw [if_pos hk] at h
        simp only [Option.some.injEq] at h
        subst h
        simp [hk]
      · rw [if_neg hk] at h
        cases h

theorem lastIdx?_greatest (xs : List Int) (k : Int) :
    ∀ j : Nat, lastIdx? xs k = some j →
      ∀ j' : Nat, j < j' → xs[j']? ≠ some k := by
  induction xs with
  | nil => intro j h; cases h
  | cons x xs ih =>
    intro j h j' hjj'
    rw [lastIdx?_cons] at h
    cases hL : lastIdx? xs k with
    | some j0 =>
      rw [hL] at h
      simp only [Option.some.injEq] at h
      subst h
      obtain ⟨j'', rfl⟩ : ∃ j'', j' = j'' + 1 := ⟨j' - 1, by omega⟩
      simpa using ih j0 hL j'' (by omega)
    | none =>
      rw [hL] at h
      by_cases hk : k = x
      · rw [if_pos hk] at h
        simp only [Option.some.injEq] at h
        subst h
        obtain ⟨j'', rfl⟩ : ∃ j'', j' = j'' + 1 := ⟨j' - 1, by omega⟩
        intro hget
        exact (lastIdx?_eq_none_iff xs k).mp hL
          (List.mem_iff_getElem?.mpr ⟨j'', by simpa using hget⟩)
      · rw [if_neg hk] at h
        cases h

/-- C3: after the hash build over `P`, a present key's lookup returns the
largest position holding it (later duplicates overwrite earlier ones) and
an absent key's lookup returns `-1`. -/
theorem claim3_hash_lookup_last_position (P : List Int) (k : Int) :
    (k ∈ P →
      ∃ i : Nat, hashLookup P k = (i : Int) ∧ P[i]? = some k ∧
        ∀ j : Nat, i < j → P[j]? ≠ some k) ∧
    (k ∉ P → hashHas P k = false ∧ hashLookup P k = -1) := by
  have hb : ∀ k', hashBuild P k' =
      match lastIdx? P k' with
      | some j => some j
      | none => none := by
    intro k'
    unfold hashBuild
    rw [hashBuildAux_apply]
    cases lastIdx? P k' <;> simp
  constructor
  · intro hk
    cases hL : lastIdx? P k with
    | none => exact absurd hk ((lastIdx?_eq_none_iff P k).mp hL)
    | some j =>
      refine ⟨j, ?_, lastIdx?_getElem P k j hL, lastIdx?_greatest P k j hL⟩
      unfold hashLookup
      rw [hb k, hL]
  · intro hk
    have hL : lastIdx? P k = none := (lastIdx?_eq_none_iff P k).mpr hk
    constructor
    · unfold hashHas
      rw [hb k, hL]
      rfl
    · unfold hashLookup
      rw [hb k, hL]

theorem claim3_hash_lookup_last_position_witness :
    ((2 : Int) ∈ [2, 7, 2] ∧ hashLookup [2, 7, 2] 2 = 2) ∧
      ((5 : Int) ∉ [2, 7, 2] ∧ hashLookup [2, 7, 2] 5 = -1) := by
  refine ⟨⟨by decide, by decide⟩,
    ⟨by decide, ((claim3_hash_lookup_last_position [2, 7, 2] 5).2 (by decide)).2⟩⟩

/-! ### Binary search lemmas -/

/-- In a sorted list, values at increasing positions are nondecreasing. -/
theorem sorted_getElem?_mono {l : List Int} (hs : List.Sorted (fun a b => a ≤ b) l)
    {i j : Nat} (hij : i ≤ j) {a b : Int} (ha : l[i]? = some a) (hb : l[j]? = some b) :
    a ≤ b := by
  obtain ⟨hi, rfl⟩ := List.getElem?_eq_some.mp ha
  obtain ⟨hj, rfl⟩ := List.getElem?_eq_some.mp hb
  rcases Nat.eq_or_lt_of_le hij with h | h
  · subst h; rfl
  · have := @List.Sorted.rel_get_of_lt _ _ _ hs ⟨i, hi⟩ ⟨j, hj⟩ (by exact h)
    simpa [List.get_eq_getElem] using this

/-- The loop returns `-1` for a target absent from the array (no
sortedness needed: the only `return mid` requires an exact element hit). -/
theorem binsearchAux_of_not_mem (nums : List Int) (target : Int)
    (hmem : target ∉ nums) (low high : Int) :
    binsearchAux nums target low high = -1 := by
  induction low, high using binsearchAux.induct nums target with
  | case1 low high hlh hj =>
    exact absurd (mem_of_jsGet_eq_some hj) hmem
  | case2 low high hlh num hj hne hgt ih =>
    rw [binsearchAux, dif_pos hlh, hj]
    simp only [if_neg hne, if_pos hgt]
    exact ih
  | case3 low high hlh num hj hne hgt ih =>
    rw [binsearchAux, dif_pos hlh, hj]
    simp only [if_neg hne, if_neg hgt]
    exact ih
  | case4 low high hlh hj ih =>
    rw [binsearchAux, dif_pos hlh, hj]
    exact ih
  | case5 low high hlh =>
    rw [binsearchAux, dif_neg hlh]

/-- If the target sits at some position inside `[low, high]` of the sorted
array, the loop returns a position holding it. -/
theorem binsearchAux_finds (nums : List Int) (target : Int)
    (hs : List.Sorted (fun a b => a ≤ b) nums) (low high : Int) :
    0 ≤ low → high < (nums.length : Int) →
    (∃ w : Nat, low ≤ (w : Int) ∧ (w : Int) ≤ high ∧ nums[w]? = some target) →
    ∃ i : Nat, nums[i]? = some target ∧ binsearchAux nums target low high = (i : Int) := by
  induction low, high using binsearchAux.induct nums target with
  | case1 low high hlh hj =>
    intro h0 hlen _
    have h0m : 0 ≤ (high - low) / 2 + low := by omega
    refine ⟨((high - low) / 2 + low).toNat, ?_, ?_⟩
    · have hj' := hj
      unfold jsGet at hj'
      rw [if_pos h0m] at hj'
      exact hj'
    · rw [binsearchAux, dif_pos hlh, hj]
      show (if target = target then (high - low) / 2 + low
          else if target > target then binsearchAux nums target low ((high - low) / 2 + low - 1)
          else binsearchAux nums target ((high - low) / 2 + low + 1) high) =
        (((high - low) / 2 + low).toNat : Int)
      rw [if_pos rfl]
      omega
  | case2 low high hlh num hj hne hgt ih =>
    intro h0 hlen hw
    obtain ⟨w, hw1, hw2, hw3⟩ := hw
    have h0m : 0 ≤ (high - low) / 2 + low := by omega
    have hmh : (high - low) / 2 + low ≤ high := by omega
    have hj' := hj
    unfold jsGet at hj'
    rw [if_pos h0m] at hj'
    have hwlt : (w : Int) ≤ (high - low) / 2 + low - 1 := by
      by_contra hcon
      have hle : ((high - low) / 2 + low).toNat ≤ w := by omega
      have := sorted_getElem?_mono hs hle hj' hw3
      omega
    obtain ⟨i, hi1, hi2⟩ := ih h0 (by omega) ⟨w, hw1, hwlt, hw3⟩
    refine ⟨i, hi1, ?_⟩
    rw [binsearchAux, dif_pos hlh, hj]
    simp only [if_neg hne, if_pos hgt]
    exact hi2
  | case3 low high hlh num hj hne hgt ih =>
    intro h0 hlen hw
    obtain ⟨w, hw1, hw2, hw3⟩ := hw
    have h0m : 0 ≤ (high - low) / 2 + low := by omega
    have hmh : (high - low) / 2 + low ≤ high := by omega
    have hj' := hj
    unfold jsGet at hj'
    rw [if_pos h0m] at hj'
    have hwgt : (high - low) / 2 + low + 1 ≤ (w : Int) := by
      by_contra hcon
      have hle : w ≤ ((high - low) / 2 + low).toNat := by omega
      have := sorted_getElem?_mono hs hle hw3 hj'
      omega
    obtain ⟨i, hi1, hi2⟩ := ih (by omega) hlen ⟨w, hwgt, hw2, hw3⟩
    refine ⟨i, hi1, ?_⟩
    rw [binsearchAux, dif_pos hlh, hj]
    simp only [if_neg hne, if_neg hgt]
    exact hi2
  | case4 low high hlh hj ih =>
    intro h0 hlen hw
    obtain ⟨w, hw1, hw2, hw3⟩ := hw
    have h0m : 0 ≤ (high - low) / 2 + low := by omega
    have hj' := hj
    unfold jsGet at hj'
    rw [if_pos h0m] at hj'
    rw [List.getElem?_eq_getElem (by omega)] at hj'
    cases hj'
  | case5 low high hlh =>
    intro h0 hlen hw
    obtain ⟨w, hw1, hw2, _⟩ := hw
    omega

/-- C4: on any ascending-sorted array, `binsearch` returns an index of some
occurrence of the target when it is present and `-1` when it is absent;
and the built SortedArrayIndex of population `[5,1,3,2,4]` is
`[1,2,3,4,5]`, on which `lookup(3) = 2` and `lookup(10) = -1`. -/
theorem claim4_binsearch_correct :
    (∀ (A : List Int) (t : Int), List.Sorted (fun a b => a ≤ b) A →
      (t ∈ A → ∃ i : Nat, A[i]? = some t ∧ binsearch A t = (i : Int)) ∧
      (t ∉ A → binsearch A t = -1)) ∧
    (sortArray [5, 1, 3, 2, 4] = [1, 2, 3, 4, 5] ∧
      binsearch (sortArray [5, 1, 3, 2, 4]) 3 = 2 ∧
      binsearch (sortArray [5, 1, 3, 2, 4]) 10 = -1) := by
  constructor
  · intro A t hs
    constructor
    · intro ht
      obtain ⟨w, hw⟩ := List.mem_iff_getElem?.mp ht
      have hwlen : w < A.length := (List.getElem?_eq_some.mp hw).1
      exact binsearchAux_finds A t hs 0 ((A.length : Int) - 1)
        (by omega) (by omega) ⟨w, by omega, by omega, hw⟩
    · intro ht
      exact binsearchAux_of_not_mem A t ht 0 ((A.length : Int) - 1)
  · refine ⟨by decide, ?_, ?_⟩
    · rw [(by decide : sortArray [5, 1, 3, 2, 4] = [1, 2, 3, 4, 5])]
      simp [binsearch, binsearchAux, jsGet]
    · rw [(by decide : sortArray [5, 1, 3, 2, 4] = [1, 2, 3, 4, 5])]
      simp [binsearch, binsearchAux, jsGet]

theorem claim4_binsearch_correct_witness :
    (List.Sorted (fun a b => a ≤ b) [(1 : Int), 2, 3, 4, 5] ∧
        (10 : Int) ∉ [(1 : Int), 2, 3, 4, 5]) ∧
      binsearch [1, 2, 3, 4, 5] 10 = -1 :=
  ⟨⟨by decide, by decide⟩,
    (claim4_binsearch_correct.1 [1, 2, 3, 4, 5] 10 (by decide)).2 (by decide)⟩

/-! ### SortedArrayIndex invariant -/

/-- The built array is sorted. -/
theorem sorted_sortArray (l : List Int) :
    List.Sorted (fun a b => a ≤ b) (sortArray l) :=
  List.sorted_insertionSort (fun a b => a ≤ b) l

/-- The built array is a permutation of the population. -/
theorem perm_sortArray (l : List Int) : (sortArray l).Perm l :=
  List.perm_insertionSort (fun a b => a ≤ b) l

/-- C8: after the SortedArrayIndex build over any population, adjacent
elements are in order: whenever positions `i` and `i + 1` both exist,
`array[i] ≤ array[i+1]`. -/
theorem claim8_sorted_array_adjacent (dataset : List Int) (i : Nat) (a b : Int)
    (ha : (sortArray dataset)[i]? = some a)
    (hb : (sortArray dataset)[i + 1]? = some b) :
    a ≤ b :=
  sorted_getElem?_mono (sorted_sortArray dataset) (Nat.le_succ i) ha hb

theorem claim8_sorted_array_adjacent_witness :
    ((sortArray [2, 1])[0]? = some 1 ∧ (sortArray [2, 1])[1]? = some 2) ∧
      (1 : Int) ≤ 2 :=
  ⟨⟨by decide, by decide⟩,
    claim8_sorted_array_adjacent [2, 1] 0 1 2 (by decide) (by decide)⟩

/-! ### Timed query pass -/

/-- When the route's loop bound equals the query set's length, the looked
up keys are exactly the query set, in order. -/
theorem queryPassKeys_eq_of_length (testset : List Int) :
    queryPassKeys testset testset.length = testset.map some := by
  unfold queryPassKeys
  induction testset with
  | nil => rfl
  | cons x xs ih =>
    rw [List.length_cons, List.range_succ_eq_map, List.map_cons, List.map_map]
    simp only [Function.comp_def, List.getElem?_cons_succ, List.getElem?_cons_zero]
    rw [ih, List.map_cons]

/-- C9: the timed query pass of a benchmark route looks up `testset[index]`
once per iteration for `index = 0 … num − 1`; when the current QuerySet
was produced by the matching generator (so its length equals the route's
loop bound `num`), the sequence of looked-up keys is exactly the QuerySet —
one lookup per entry and no lookup of anything else. -/
theorem claim9_query_pass_one_lookup_per_entry (testset : List Int) (num : Nat)
    (h : testset.length = num) :
    queryPassKeys testset num = testset.map some := by
  subst h
  exact queryPassKeys_eq_of_length testset

theorem claim9_query_pass_one_lookup_per_entry_witness :
    (List.length [(4 : Int), 5] = 2) ∧
      queryPassKeys [4, 5] 2 = [some 4, some 5] :=
  ⟨rfl, (claim9_query_pass_one_lookup_per_entry [4, 5] 2 rfl).trans (by decide)⟩

/-! ### Heap lemmas for the build phases -/

theorem jsSlice0_ref (h : JsHeap) (r : Nat) : (jsSlice0 h r).2 = h.arrays.length := rfl

theorem jsSlice0_length (h : JsHeap) (r : Nat) :
    (jsSlice0 h r).1.arrays.length = h.arrays.length + 1 := by
  simp [jsSlice0, JsHeap.alloc]

theorem jsSlice0_read_old (h : JsHeap) (r r' : Nat) (hr' : r' < h.arrays.length) :
    (jsSlice0 h r).1.read r' = h.read r' := by
  simp [jsSlice0, JsHeap.alloc, JsHeap.read, List.getElem?_append_left hr']

theorem jsSlice0_read_new (h : JsHeap) (r : Nat) :
    (jsSlice0 h r).1.read (jsSlice0 h r).2 = h.read r := by
  simp [jsSlice0, JsHeap.alloc, JsHeap.read, jsSlice0_ref, List.getElem?_concat_length]

theorem jsSortInPlace_ref (h : JsHeap) (r : Nat) : (jsSortInPlace h r).2 = r := rfl

theorem jsSortInPlace_length (h : JsHeap) (r : Nat) :
    (jsSortInPlace h r).1.arrays.length = h.arrays.length := by
  simp [jsSortInPlace, JsHeap.write]

theorem jsSortInPlace_read_ne (h : JsHeap) (r r' : Nat) (hne : r' ≠ r) :
    (jsSortInPlace h r).1.read r' = h.read r' := by
  simp [jsSortInPlace, JsHeap.write, JsHeap.read, List.getElem?_set_ne hne.symm]

theorem jsSortInPlace_read_self (h : JsHeap) (r : Nat) (hr : r < h.arrays.length) :
    (jsSortInPlace h r).1.read r = sortArray (h.read r) := by
  simp [jsSortInPlace, JsHeap.write, JsHeap.read, List.getElem?_set_self hr]

/-- Running the shared build-phase statement sequence
(`slice(0)`, in-place sort, `slice(0)`, `slice(0)`, in-place sort) leaves
the `dataset` reference untouched and leaves the sorted copy behind the
returned `array` reference. -/
theorem buildChain_frame (h0 : JsHeap) (d : Nat) (hd : d < h0.arrays.length)
    (b : JsHeap × Nat)
    (hb : b = (let p1 := jsSlice0 h0 d
               let p2 := jsSortInPlace p1.1 p1.2
               let p3 := jsSlice0 p2.1 p2.2
               let p4 := jsSlice0 p3.1 d
               jsSortInPlace p4.1 p4.2)) :
    b.1.read d = h0.read d ∧ b.1.read b.2 = sortArray (h0.read d) := by
  rcases hq1 : jsSlice0 h0 d with ⟨h1, r1⟩
  have f1 : (jsSlice0 h0 d).1 = h1 := by rw [hq1]
  have g1 : (jsSlice0 h0 d).2 = r1 := by rw [hq1]
  have hr1 : r1 = h0.arrays.length := g1 ▸ jsSlice0_ref h0 d
  have hl1 : h1.arrays.length = h0.arrays.length + 1 := f1 ▸ jsSlice0_length h0 d
  have hd1 : h1.read d = h0.read d := f1 ▸ jsSlice0_read_old h0 d d hd
  have hn1 : h1.read r1 = h0.read d := by
    have := jsSlice0_read_new h0 d
    rw [f1, g1] at this
    exact this
  rcases hq2 : jsSortInPlace h1 r1 with ⟨h2, r2⟩
  have f2 : (jsSortInPlace h1 r1).1 = h2 := by rw [hq2]
  have g2 : (jsSortInPlace h1 r1).2 = r2 := by rw [hq2]
  have hr2 : r2 = r1 := g2 ▸ jsSortInPlace_ref h1 r1
  have hl2 : h2.arrays.length = h1.arrays.length := f2 ▸ jsSortInPlace_length h1 r1
  have hd2 : h2.read d = h0.read d :=
    (f2 ▸ jsSortInPlace_read_ne h1 r1 d (by omega)).trans hd1
  have hn2 : h2.read r1 = sortArray (h0.read d) := by
    have := jsSortInPlace_read_self h1 r1 (by omega)
    rw [f2, hn1] at this
    exact this
  rcases hq3 : jsSlice0 h2 r2 with ⟨h3, r3⟩
  have f3 : (jsSlice0 h2 r2).1 = h3 := by rw [hq3]
  have hl3 : h3.arrays.length = h2.arrays.length + 1 := f3 ▸ jsSlice0_length h2 r2
  have hd3 : h3.read d = h0.read d :=
    (f3 ▸ jsSlice0_read_old h2 r2 d (by omega)).trans hd2
  rcases hq4 : jsSlice0 h3 d with ⟨h4, r4⟩
  have f4 : (jsSlice0 h3 d).1 = h4 := by rw [hq4]
  have g4 : (jsSlice0 h3 d).2 = r4 := by rw [hq4]
  have hr4 : r4 = h3.arrays.length := g4 ▸ jsSlice0_ref h3 d
  have hl4 : h4.arrays.length = h3.arrays.length + 1 := f4 ▸ jsSlice0_length h3 d
  have hd4 : h4.read d = h0.read d :=
    (f4 ▸ jsSlice0_read_old h3 d d (by omega)).trans hd3
  have hn4 : h4.read r4 = h0.read d := by
    have := jsSlice0_read_new h3 d
    rw [f4, g4, hd3] at this
    exact this
  simp only [hq1, hq2, hq3, hq4] at hb
  subst hb
  constructor
  · exact (jsSortInPlace_read_ne h4 r4 d (by omega)).trans hd4
  · rw [jsSortInPlace_ref]
    rw [jsSortInPlace_read_self h4 r4 (by omega), hn4]

/-- C7: the build phase of the binarysearch and trick benchmarks sorts
fresh `slice(0)` copies only: afterwards the shared `dataset` reference
holds exactly the array it held before (same elements, same order), and
the `array` reference holds an ascending-sorted permutation of it. -/
theorem claim7_build_leaves_dataset_unchanged (h0 : JsHeap) (d : Nat)
    (hd : d < h0.arrays.length) :
    ((binarysearchBuild h0 d).1.read d = h0.read d ∧
      (binarysearchBuild h0 d).1.read (binarysearchBuild h0 d).2 = sortArray (h0.read d) ∧
      List.Sorted (fun a b => a ≤ b)
        ((binarysearchBuild h0 d).1.read (binarysearchBuild h0 d).2) ∧
      ((binarysearchBuild h0 d).1.read (binarysearchBuild h0 d).2).Perm (h0.read d)) ∧
    ((trickBuild h0 d).1.read d = h0.read d ∧
      (trickBuild h0 d).1.read (trickBuild h0 d).2 = sortArray (h0.read d) ∧
      List.Sorted (fun a b => a ≤ b) ((trickBuild h0 d).1.read (trickBuild h0 d).2) ∧
      ((trickBuild h0 d).1.read (trickBuild h0 d).2).Perm (h0.read d)) := by
  obtain ⟨hba, hbb⟩ := buildChain_frame h0 d hd (binarysearchBuild h0 d) rfl
  obtain ⟨hta, htb⟩ := buildChain_frame h0 d hd (trickBuild h0 d) rfl
  refine ⟨⟨hba, hbb, ?_, ?_⟩, hta, htb, ?_, ?_⟩
  · rw [hbb]; exact sorted_sortArray _
  · rw [hbb]; exact perm_sortArray _
  · rw [htb]; exact sorted_sortArray _
  · rw [htb]; exact perm_sortArray _

theorem claim7_build_leaves_dataset_unchanged_witness :
    0 < (JsHeap.mk [[2, 1]]).arrays.length ∧
      (binarysearchBuild ⟨[[2, 1]]⟩ 0).1.read 0 = [2, 1] :=
  ⟨by decide,
    ((claim7_build_leaves_dataset_unchanged ⟨[[2, 1]]⟩ 0 (by decide)).1.1).trans (by decide)⟩
